import Mathlib

/-!
Shallow embedding of the Udup client agent (src/client/client.go): the node
lifecycle and allocation reconciliation engine.

Modelling conventions:
- Go maps are association lists; insertion overwrites, lookup takes the first
  binding, deletion removes the key.
- Durations are `Nat` nanoseconds, mirroring Go `time.Duration` values.
- `lib.RandomStagger(intv)` draws `rand % intv`; the random draw is passed in
  as an explicit `entropy` argument.
- Goroutine launches (`go ar.Run()`) are recorded in a `launched` trace list.
- The `structs` package is not part of the provided sources; the few pieces of
  it the client reads (allocation fields, `Terminated`, network resources) are
  modelled from the spec where noted.
-/

namespace Udup

/-- Association-list model of a Go map; the first binding for a key wins. -/
def mapLookup {α : Type} : List (String × α) → String → Option α
  | [], _ => none
  | p :: rest, k => if p.1 = k then some p.2 else mapLookup rest k

/-- Removal of a key, modelling Go `delete(m, k)`. -/
def mapErase {α : Type} : List (String × α) → String → List (String × α)
  | [], _ => []
  | p :: rest, k => if p.1 = k then mapErase rest k else p :: mapErase rest k

/-- Insertion modelling Go `m[k] = v` (overwrites any previous binding). -/
def mapInsert {α : Type} (m : List (String × α)) (k : String) (v : α) :
    List (String × α) :=
  (k, v) :: mapErase m k

def mapKeys {α : Type} (m : List (String × α)) : List String :=
  m.map (fun p => p.1)

def mapValues {α : Type} (m : List (String × α)) : List α :=
  m.map (fun p => p.2)

/-- Every binding's value carries its own key under `f`.  All maps the client
builds satisfy this, because every insertion uses a field of the value as the
key. -/
def keyedBy {α : Type} (f : α → String) (m : List (String × α)) : Prop :=
  ∀ p ∈ m, f p.2 = p.1

/-! ### Durations (client.go:30-78), in nanoseconds -/

def second : Nat := 1000000000

def millisecond : Nat := 1000000

/-- Minimum interval on which registration is retried (client.go:45). -/
def registerRetryIntv : Nat := 15 * second

/-- Minimum interval on which allocation fetch is retried (client.go:49). -/
def getAllocRetryIntv : Nat := 30 * second

/-- Retry interval used for development mode (client.go:52). -/
def devModeRetryIntv : Nat := second

/-- Stagger bound before the initial heartbeat (client.go:65). -/
def initialHeartbeatStagger : Nat := 10 * second

/-- Batching period of allocation updates (client.go:73). -/
def allocSyncIntv : Nat := 200 * millisecond

/-- Retry interval for allocation status updates (client.go:77). -/
def allocSyncRetryIntv : Nat := 5 * second

/-- `lib.RandomStagger(intv)` returns a duration in `[0, intv)`; the random
draw is the `entropy` argument. -/
def randomStagger (intv entropy : Nat) : Nat := entropy % intv

/-- `Client.retryIntv` (client.go:660): dev mode returns the flat dev
interval, otherwise `base + rand[0, base)`. -/
def retryIntv (devMode : Bool) (base entropy : Nat) : Nat :=
  if devMode then devModeRetryIntv else base + randomStagger base entropy

/-! ### Strings -/

/-- Substring test on char lists, modelling Go `strings.Contains`. -/
def containsSub (pat : List Char) : List Char → Bool
  | [] => pat.isEmpty
  | c :: rest => pat.isPrefixOf (c :: rest) || containsSub pat rest

def strContains (s pat : String) : Bool := containsSub pat.toList s.toList

/-! ### Data model -/

/-- Modelled from the spec: `structs.Port` is not under src/; a network port
reservation entry with a value (and label). -/
structure Port where
  Label : String := ""
  Value : Int := 0
deriving DecidableEq

/-- Modelled from the spec: `structs.NetworkResource` is not under src/; a
fingerprinted network device with per-network port arrays (§3).  Only the
fields the client core reads (`IP`, `MBits`, `ReservedPorts`) plus identifying
fields are modelled; `Copy` is the identity on this pure value. -/
structure NetworkResource where
  Device : String := ""
  CIDR : String := ""
  IP : String := ""
  MBits : Int := 0
  ReservedPorts : List Port := []
deriving DecidableEq

/-- Modelled from the spec: `structs.Allocation` is not under src/.  The core
reads only ID, PreviousAllocation, the client-updatable status fields and a
terminal predicate (§3); `AllocModifyIndex` stands in for the opaque
server-side payload so that the frame effect of stripping is observable. -/
structure Allocation where
  ID : String := ""
  NodeID : String := ""
  TaskStates : List (String × String) := []
  ClientStatus : String := ""
  ClientDescription : String := ""
  PreviousAllocation : String := ""
  AllocModifyIndex : Nat := 0
deriving DecidableEq

def AllocClientStatusComplete : String := "complete"

def AllocClientStatusFailed : String := "failed"

def AllocClientStatusLost : String := "lost"

/-- Modelled from the spec: `Allocation.Terminated` is not under src/; §3
gives the client-side statuses {pending, running, complete, failed, lost}, of
which complete, failed and lost denote terminal state. -/
def Allocation.Terminated (a : Allocation) : Bool :=
  a.ClientStatus == AllocClientStatusComplete ||
  a.ClientStatus == AllocClientStatusFailed ||
  a.ClientStatus == AllocClientStatusLost

/-- The Alloc Runner is opaque to the core (spec §1); the core only ever
stores it and reads back the allocation it was created with (`Alloc()`). -/
structure AllocRunner where
  alloc : Allocation
deriving DecidableEq

/-! ### Reconciler (client.go:1100-1196) -/

/-- Observable client state touched by the reconciler: the alloc index
(`c.allocs`), the blocked index (`c.blockedAllocations`) and the trace of
allocation IDs whose runner's `Run` was launched. -/
structure ReconcilerState where
  allocs : List (String × AllocRunner)
  blocked : List (String × Allocation)
  launched : List String
deriving DecidableEq

/-- `Client.addAlloc` (client.go:1185): create a runner via the factory,
launch its `Run`, and install it in the alloc index under its ID. -/
def addAlloc (allocs : List (String × AllocRunner)) (launched : List String)
    (alloc : Allocation) : List (String × AllocRunner) × List String :=
  (mapInsert allocs alloc.ID ⟨alloc⟩, launched ++ [alloc.ID])

/-- Processing of one entry of `diff.added` in `Client.runAllocs`
(client.go:1130-1146): if the previous allocation has a runner in the alloc
index whose allocation is not terminal, queue the new allocation in the
blocked index under the previous ID; otherwise add it. -/
def runAllocsAdded (s : ReconcilerState) (add : Allocation) : ReconcilerState :=
  match mapLookup s.allocs add.PreviousAllocation with
  | some ar =>
    if ar.alloc.Terminated then
      { s with allocs := (addAlloc s.allocs s.launched add).1,
               launched := (addAlloc s.allocs s.launched add).2 }
    else
      { s with blocked := mapInsert s.blocked add.PreviousAllocation add }
  | none =>
      { s with allocs := (addAlloc s.allocs s.launched add).1,
               launched := (addAlloc s.allocs s.launched add).2 }

/-! ### Alloc-update sync loop (client.go:867-941) -/

/-- State of the `allocSync` loop: the batch mapping `updates`, the shared
alloc and blocked indices, the launch trace, the `staggered` flag, and the
current ticker period. -/
structure SyncState where
  updates : List (String × Allocation)
  allocs : List (String × AllocRunner)
  blocked : List (String × Allocation)
  launched : List String
  staggered : Bool
  tickerIntv : Nat
deriving DecidableEq

/-- `Client.updateAllocStatus` (client.go:868): the message sent on the
status-update channel, a fresh Allocation carrying only the client-updatable
fields; `NodeID` is taken from the client's own node. -/
def updateAllocStatus (nodeID : String) (alloc : Allocation) : Allocation :=
  { ID := alloc.ID
    NodeID := nodeID
    TaskStates := alloc.TaskStates
    ClientStatus := alloc.ClientStatus
    ClientDescription := alloc.ClientDescription }

/-- Intake of one message in `Client.allocSync` (client.go:893-907): record it
in the batch mapping, and if its ID keys a blocked allocation and the message
is terminal, add the blocked allocation and delete its previous-allocation
key, all in the same critical section. -/
def allocSyncRecv (s : SyncState) (alloc : Allocation) : SyncState :=
  let updates := mapInsert s.updates alloc.ID alloc
  match mapLookup s.blocked alloc.ID with
  | some blockedAlloc =>
    if alloc.Terminated then
      { s with updates := updates,
               allocs := (addAlloc s.allocs s.launched blockedAlloc).1,
               launched := (addAlloc s.allocs s.launched blockedAlloc).2,
               blocked := mapErase s.blocked blockedAlloc.PreviousAllocation }
    else { s with updates := updates }
  | none => { s with updates := updates }

/-- One ticker fire in `Client.allocSync` (client.go:908-938).  `rpcOk` is the
outcome of the `Node.UpdateAlloc` RPC; the first component is the batch sent
(none when the mapping is empty and no RPC is issued). -/
def allocSyncTick (devMode : Bool) (s : SyncState) (rpcOk : Bool)
    (entropy : Nat) : Option (List Allocation) × SyncState :=
  if s.updates.isEmpty then (none, s)
  else
    let sync := mapValues s.updates
    if rpcOk then
      if s.staggered then
        (some sync, { s with updates := [], tickerIntv := allocSyncIntv,
                             staggered := false })
      else
        (some sync, { s with updates := [] })
    else
      (some sync, { s with tickerIntv := retryIntv devMode allocSyncRetryIntv entropy,
                           staggered := true })

/-! ### Allocation watcher (client.go:954-1070) -/

/-- The `MinQueryIndex` advance in `Client.watchAllocations`
(client.go:1050-1053). -/
def updateMinQueryIndex (minQueryIndex respIndex : Nat) : Nat :=
  if respIndex > minQueryIndex then respIndex else minQueryIndex

/-! ### Registration and heartbeat (client.go:659-712) -/

structure HeartbeatDecision where
  reregisterCalls : Nat
  nextDelay : Nat
deriving DecidableEq

def nodeNotFoundMsg : String := "node not found"

/-- Error handling of one iteration of the heartbeat loop in
`Client.registerAndHeartbeat` (client.go:686-706).  `updateErr` is the result
of `updateNodeStatus`; `reregisterCalls` counts invocations of
`retryRegisterNode`; `nextDelay` is the duration until the next heartbeat
attempt. -/
def heartbeatIter (devMode : Bool) (updateErr : Option String)
    (heartbeatTTL staleEntropy retryEntropy : Nat) : HeartbeatDecision :=
  match updateErr with
  | some e =>
    if strContains e nodeNotFoundMsg then
      { reregisterCalls := 1,
        nextDelay := randomStagger initialHeartbeatStagger staleEntropy }
    else
      { reregisterCalls := 0,
        nextDelay := retryIntv devMode registerRetryIntv retryEntropy }
  | none => { reregisterCalls := 0, nextDelay := heartbeatTTL }

/-! ### Node ID persistence (client.go:484-511) -/

/-- A pure file system: path to (content, mode). -/
structure FileSys where
  files : List (String × (String × Nat))
deriving DecidableEq

def readFile (fs : FileSys) (path : String) : Option String :=
  match mapLookup fs.files path with
  | some c => some c.1
  | none => none

def writeFile (fs : FileSys) (path content : String) (mode : Nat) : FileSys :=
  ⟨mapInsert fs.files path (content, mode)⟩

def clientIDFile : String := "client-id"

def nodeIDPath (stateDir : String) : String :=
  stateDir ++ "/" ++ clientIDFile

/-- `Client.nodeID` (client.go:484): dev mode returns a fresh UUID without
persisting; otherwise the `client-id` file is returned if non-empty, else a
fresh UUID (the `uuid` argument, standing for `structs.GenerateUUID()`) is
written to it with mode 0700 and returned. -/
def nodeID (devMode : Bool) (stateDir : String) (fs : FileSys)
    (uuid : String) : String × FileSys :=
  if devMode then (uuid, fs)
  else
    let idPath := nodeIDPath stateDir
    let idBuf := (readFile fs idPath).getD ""
    if idBuf.length ≠ 0 then (idBuf, fs)
    else (uuid, writeFile fs idPath uuid 0o700)

/-! ### Reserved ports (client.go:556-597) -/

def globalPorts (global : List Int) : List Port :=
  global.map (fun v => { Value := v })

/-- The index of already-reserved networks keyed by IP
(client.go:566-569). -/
def buildReservedIndex (reservedNets : List NetworkResource) :
    List (String × NetworkResource) :=
  reservedNets.foldl (fun idx n => mapInsert idx n.IP n) []

/-- The merged entry for one fingerprinted device: the prior reserved entry if
present, else a copy of the device with MBits zeroed; the globally reserved
ports are appended to its reserved-port list (client.go:572-584). -/
def reserveValue (global : List Int) (prior : Option NetworkResource)
    (net : NetworkResource) : NetworkResource :=
  let res := match prior with
    | some r => r
    | none => { net with MBits := 0 }
  { res with ReservedPorts := res.ReservedPorts ++ globalPorts global }

def reserveStep (global : List Int) (idx : List (String × NetworkResource))
    (net : NetworkResource) : List (String × NetworkResource) :=
  mapInsert idx net.IP (reserveValue global (mapLookup idx net.IP) net)

def applyGlobal (global : List Int) (idx : List (String × NetworkResource))
    (resourceNets : List NetworkResource) : List (String × NetworkResource) :=
  resourceNets.foldl (reserveStep global) idx

/-- `Client.reservePorts` (client.go:556): with a non-empty globally-reserved
port list, rebuild `Reserved.Networks` from the IP-keyed index after merging
the global ports into the entry of every fingerprinted device. -/
def reservePorts (global : List Int) (resourceNets reservedNets : List NetworkResource) :
    List NetworkResource :=
  if global.isEmpty then reservedNets
  else mapValues (applyGlobal global (buildReservedIndex reservedNets) resourceNets)

/-! ### Fingerprint pass (client.go:599-640) -/

structure FingerprintResult where
  ran : List String
  applied : List String
  skipped : List String
  err : Option String
deriving DecidableEq

/-- One boot pass of `Client.fingerprint` (client.go:600): whitelist
filtering, then sequential one-shot `Fingerprint` calls.  Each built-in
fingerprinter is given together with the result its `Fingerprint` call would
produce; the first error is returned immediately, so later fingerprinters are
not invoked.  `ran` traces the fingerprinters actually invoked. -/
def fingerprint (whitelist : List String) :
    List (String × Except String Bool) → FingerprintResult
  | [] => { ran := [], applied := [], skipped := [], err := none }
  | (name, res) :: rest =>
    if whitelist ≠ [] ∧ name ∉ whitelist then
      let r := fingerprint whitelist rest
      { r with skipped := name :: r.skipped }
    else
      match res with
      | Except.error e => { ran := [name], applied := [], skipped := [], err := some e }
      | Except.ok applies =>
        let r := fingerprint whitelist rest
        { r with ran := name :: r.ran,
                 applied := if applies then name :: r.applied else r.applied }

def fingerprintingFailedMsg : String := "fingerprinting failed: "

/-- The fingerprint step of `NewClient` (client.go:166-169): a fingerprint
error fails client construction. -/
def newClientFingerprint (whitelist : List String)
    (fps : List (String × Except String Bool)) : Except String Unit :=
  match (fingerprint whitelist fps).err with
  | some e => Except.error (fingerprintingFailedMsg ++ e)
  | none => Except.ok ()

/-! ### Restore (client.go:419-452) -/

structure RestoreOutcome where
  allocs : List (String × AllocRunner)
  launched : List String
  errs : List String
deriving DecidableEq

/-- One directory entry of the restore loop (client.go:435-450): build a
runner for the alloc ID, install it in the alloc index, then either collect
the `RestoreState` error or launch `Run`. -/
def restoreStep (o : RestoreOutcome) (entry : String × Option String) :
    RestoreOutcome :=
  let ar : AllocRunner := ⟨{ ID := entry.1 }⟩
  match entry.2 with
  | some e => { o with allocs := mapInsert o.allocs entry.1 ar,
                       errs := o.errs ++ [e] }
  | none => { o with allocs := mapInsert o.allocs entry.1 ar,
                     launched := o.launched ++ [entry.1] }

/-- `Client.restoreState` over the directory listing; each entry carries the
result its runner's `RestoreState` would produce (none = success). -/
def restoreState (entries : List (String × Option String)) : RestoreOutcome :=
  entries.foldl restoreStep { allocs := [], launched := [], errs := [] }

/-- `multierror.ErrorOrNil`: none iff no error was collected. -/
def restoreErrorOrNil (o : RestoreOutcome) : Option (List String) :=
  if o.errs = [] then none else some o.errs

/-- The restore step of `NewClient` (client.go:189-192): a non-nil restore
error fails client construction. -/
def newClientRestore (entries : List (String × Option String)) :
    Except (List String) Unit :=
  match restoreErrorOrNil (restoreState entries) with
  | some errs => Except.error errs
  | none => Except.ok ()

/-! ### Concrete example data -/

def exPrevID : String := "alloc-a"

def exNewID : String := "alloc-b"

def exStatusRunning : String := "running"

def exPrevAlloc : Allocation := { ID := exPrevID, ClientStatus := exStatusRunning }

def exAddAlloc : Allocation := { ID := exNewID, PreviousAllocation := exPrevID }

def exReconState : ReconcilerState :=
  { allocs := [(exPrevID, ⟨exPrevAlloc⟩)], blocked := [], launched := [] }

def exTermMsg : Allocation :=
  { ID := exPrevID, ClientStatus := AllocClientStatusComplete }

def exSyncState : SyncState :=
  { updates := [], allocs := [(exPrevID, ⟨exPrevAlloc⟩)],
    blocked := [(exPrevID, exAddAlloc)], launched := [],
    staggered := false, tickerIntv := allocSyncIntv }

def exSyncID : String := "alloc-x"

def exMsgRunning : Allocation := { ID := exSyncID, ClientStatus := exStatusRunning }

def exMsgComplete : Allocation :=
  { ID := exSyncID, ClientStatus := AllocClientStatusComplete }

def exSyncState0 : SyncState :=
  { updates := [], allocs := [], blocked := [], launched := [],
    staggered := false, tickerIntv := allocSyncIntv }

def exStaleErr : String := "rpc error: node not found"

def exOtherErr : String := "connection refused"

def exStateDir : String := "/var/lib/udup"

def exUUID : String := "7c9e6679-7425-40de-944b-e07fc1f90ae7"

def exFS : FileSys := ⟨[]⟩

def exArchName : String := "arch"

def exCPUName : String := "cpu"

def exMemName : String := "memory"

def exBoom : String := "boom"

def exFps : List (String × Except String Bool) :=
  [(exArchName, Except.ok true), (exCPUName, Except.error exBoom),
   (exMemName, Except.ok true)]

def exPre : List (String × Except String Bool) := [(exArchName, Except.ok true)]

def exPost : List (String × Except String Bool) := [(exMemName, Except.ok true)]

def exGlobal : List Int := [80]

def exIP : String := "10.0.0.1"

def exEth0 : String := "eth0"

def exDevNet : NetworkResource := { Device := exEth0, IP := exIP, MBits := 100 }

def exPriorNet : NetworkResource := { IP := exIP, ReservedPorts := [{ Value := 80 }] }

def exAllocDir1 : String := "alloc-1"

def exAllocDir2 : String := "alloc-2"

def exCorrupt : String := "state corrupt"

def exEntries : List (String × Option String) :=
  [(exAllocDir1, some exCorrupt), (exAllocDir2, none)]

/-! ### Map lemmas -/

theorem mapLookup_erase_self {α : Type} (m : List (String × α)) (k : String) :
    mapLookup (mapErase m k) k = none := by
  induction m with
  | nil => rfl
  | cons p rest ih =>
    by_cases h : p.1 = k
    · simpa [mapErase, h] using ih
    · simp [mapErase, mapLookup, h, ih]

theorem mapLookup_erase_ne {α : Type} (m : List (String × α)) {k k' : String}
    (h : k' ≠ k) : mapLookup (mapErase m k) k' = mapLookup m k' := by
  induction m with
  | nil => rfl
  | cons p rest ih =>
    by_cases hpk : p.1 = k
    · have hk : ¬ k = k' := fun hh => h hh.symm
      have hp : ¬ p.1 = k' := by rw [hpk]; exact hk
      simp [mapErase, mapLookup, hpk, hp, hk, ih]
    · by_cases hp : p.1 = k'
      · simp [mapErase, mapLookup, hpk, hp, h]
      · simp [mapErase, mapLookup, hpk, hp, ih]

theorem mapLookup_insert_self {α : Type} (m : List (String × α)) (k : String)
    (v : α) : mapLookup (mapInsert m k v) k = some v := by
  simp [mapInsert, mapLookup]

theorem mapLookup_insert_ne {α : Type} (m : List (String × α)) {k k' : String}
    (v : α) (h : k' ≠ k) :
    mapLookup (mapInsert m k v) k' = mapLookup m k' := by
  have hk : ¬ k = k' := fun hh => h hh.symm
  simp [mapInsert, mapLookup, hk, mapLookup_erase_ne m h]

theorem mapErase_sublist {α : Type} (m : List (String × α)) (k : String) :
    (mapErase m k).Sublist m := by
  induction m with
  | nil => simp [mapErase]
  | cons p rest ih =>
    by_cases h : p.1 = k
    · simpa [mapErase, h] using ih.cons p
    · simpa [mapErase, h] using ih.cons₂ p

theorem mem_of_mem_mapErase {α : Type} {m : List (String × α)} {k : String}
    {p : String × α} (hp : p ∈ mapErase m k) : p ∈ m :=
  (mapErase_sublist m k).subset hp

theorem not_mem_mapKeys_erase {α : Type} (m : List (String × α)) (k : String) :
    k ∉ mapKeys (mapErase m k) := by
  induction m with
  | nil => simp [mapErase, mapKeys]
  | cons p rest ih =>
    by_cases h : p.1 = k
    · simpa [mapErase, h] using ih
    · simp [mapErase, mapKeys, h]
      exact ⟨fun hh => h hh.symm, by simpa [mapKeys] using ih⟩

theorem mapKeys_nodup_insert {α : Type} {m : List (String × α)}
    (h : (mapKeys m).Nodup) (k : String) (v : α) :
    (mapKeys (mapInsert m k v)).Nodup := by
  have hsub : (mapKeys (mapErase m k)).Sublist (mapKeys m) := by
    simpa [mapKeys] using (mapErase_sublist m k).map (fun p : String × α => p.1)
  have : (mapKeys (mapErase m k)).Nodup := h.sublist hsub
  simpa [mapInsert, mapKeys] using
    List.Nodup.cons (by simpa [mapKeys] using not_mem_mapKeys_erase m k) this

theorem keyedBy_erase {α : Type} {f : α → String} {m : List (String × α)}
    (h : keyedBy f m) (k : String) : keyedBy f (mapErase m k) :=
  fun p hp => h p (mem_of_mem_mapErase hp)

theorem keyedBy_insert {α : Type} {f : α → String} {m : List (String × α)}
    (h : keyedBy f m) {k : String} {v : α} (hv : f v = k) :
    keyedBy f (mapInsert m k v) := by
  intro p hp
  rcases List.mem_cons.mp hp with hp | hp
  · rw [hp]; exact hv
  · exact keyedBy_erase h k p hp

theorem mapLookup_mem {α : Type} {m : List (String × α)} {k : String} {v : α}
    (h : mapLookup m k = some v) : (k, v) ∈ m := by
  induction m with
  | nil => simp [mapLookup] at h
  | cons p rest ih =>
    by_cases hp : p.1 = k
    · have hv : p.2 = v := by simpa [mapLookup, hp] using h
      have : p = (k, v) := by
        cases p with
        | mk a b => simp_all
      simp [this]
    · have := ih (by simpa [mapLookup, hp] using h)
      exact List.mem_cons_of_mem p this

theorem mapLookup_ne_none_of_some {α : Type} {m : List (String × α)}
    {k : String} {v : α} (h : mapLookup m k = some v) : m ≠ [] := by
  intro hm
  rw [hm] at h
  simp [mapLookup] at h

/-! ### C6: long-poll index monotonicity -/

/-- C6: `updateMinQueryIndex` advances `MinQueryIndex` to the maximum of its
previous value and the response index, so over any sequence of responses the
index never decreases across iterations of the watcher's lifetime. -/
theorem watchAllocations_minQueryIndex_monotone :
    ∀ (mqi idx : Nat), updateMinQueryIndex mqi idx = max mqi idx ∧
      mqi ≤ updateMinQueryIndex mqi idx ∧
      ∀ (idxs : List Nat) (i : Nat),
        List.foldl updateMinQueryIndex mqi idxs ≤
          List.foldl updateMinQueryIndex mqi (idxs ++ [i]) := by
  have hmax : ∀ mqi idx : Nat, updateMinQueryIndex mqi idx = max mqi idx := by
    intro mqi idx
    unfold updateMinQueryIndex
    split <;> omega
  intro mqi idx
  refine ⟨hmax mqi idx, ?_, ?_⟩
  · rw [hmax]; exact Nat.le_max_left _ _
  · intro idxs i
    rw [List.foldl_append]
    simp only [List.foldl_cons, List.foldl_nil]
    rw [hmax]
    exact Nat.le_max_left _ _

/-! ### C10: updateAllocStatus frame effect -/

/-- C10: the message sent on the status-update channel is a fresh Allocation
carrying exactly ID, NodeID (the client's own node ID, not the input's),
TaskStates, ClientStatus and ClientDescription; every other field holds its
zero value. -/
theorem updateAllocStatus_frame (nodeID : String) (alloc : Allocation) :
    (updateAllocStatus nodeID alloc).ID = alloc.ID ∧
    (updateAllocStatus nodeID alloc).NodeID = nodeID ∧
    (updateAllocStatus nodeID alloc).TaskStates = alloc.TaskStates ∧
    (updateAllocStatus nodeID alloc).ClientStatus = alloc.ClientStatus ∧
    (updateAllocStatus nodeID alloc).ClientDescription = alloc.ClientDescription ∧
    (updateAllocStatus nodeID alloc).PreviousAllocation = "" ∧
    (updateAllocStatus nodeID alloc).AllocModifyIndex = 0 := by
  refine ⟨rfl, rfl, rfl, rfl, rfl, rfl, rfl⟩

/-! ### C1: reconciler chain guard -/

/-- C1: when the Reconciler processes an added allocation whose
PreviousAllocation has a runner in the alloc index whose allocation is not
terminal, the allocation is inserted into the blocked index under the
previous ID and no runner is created; otherwise (predecessor absent —
including an absent PreviousAllocation — or predecessor terminal) a runner is
created, installed in the alloc index under its ID, and its Run launched. -/
theorem runAllocs_added_chain_guard (s : ReconcilerState) (add : Allocation) :
    (∀ ar, mapLookup s.allocs add.PreviousAllocation = some ar →
        ar.alloc.Terminated = false →
        mapLookup (runAllocsAdded s add).blocked add.PreviousAllocation = some add ∧
        (runAllocsAdded s add).allocs = s.allocs ∧
        (runAllocsAdded s add).launched = s.launched) ∧
    ((mapLookup s.allocs add.PreviousAllocation = none ∨
        (∃ ar, mapLookup s.allocs add.PreviousAllocation = some ar ∧
          ar.alloc.Terminated = true)) →
        mapLookup (runAllocsAdded s add).allocs add.ID = some ⟨add⟩ ∧
        (runAllocsAdded s add).launched = s.launched ++ [add.ID] ∧
        (runAllocsAdded s add).blocked = s.blocked) := by
  constructor
  · intro ar har hterm
    simp [runAllocsAdded, har, hterm, mapLookup_insert_self]
  · intro h
    rcases h with h | ⟨ar, har, hterm⟩
    · simp [runAllocsAdded, h, addAlloc, mapLookup_insert_self]
    · simp [runAllocsAdded, har, hterm, addAlloc, mapLookup_insert_self]

theorem runAllocs_added_chain_guard_witness :
    mapLookup (runAllocsAdded exReconState exAddAlloc).blocked
        exAddAlloc.PreviousAllocation = some exAddAlloc ∧
      (runAllocsAdded exReconState exAddAlloc).allocs = exReconState.allocs ∧
      (runAllocsAdded exReconState exAddAlloc).launched = exReconState.launched := by
  exact (runAllocs_added_chain_guard exReconState exAddAlloc).1
    ⟨exPrevAlloc⟩ (by decide) (by decide)

/-! ### C2: chained release on terminal status intake -/

/-- C2: on intake of a status-update message whose ID keys the blocked index
and whose allocation is terminal, the blocked successor is installed in the
alloc index and launched and the key is removed in the same critical section
(so the release happens exactly once — a repeated intake launches nothing
further); a non-terminal message, or one whose ID is not a blocked key,
leaves the blocked index (and the alloc index) unchanged.  The hypothesis is
the blocked-index invariant: every entry is keyed by its value's
PreviousAllocation, which is how `runAllocs` inserts entries. -/
theorem allocSyncRecv_of_none {s : SyncState} {alloc : Allocation}
    (h : mapLookup s.blocked alloc.ID = none) :
    allocSyncRecv s alloc =
      { s with updates := mapInsert s.updates alloc.ID alloc } := by
  simp [allocSyncRecv, h]

theorem allocSyncRecv_of_not_term {s : SyncState} {alloc : Allocation}
    (h : alloc.Terminated = false) :
    allocSyncRecv s alloc =
      { s with updates := mapInsert s.updates alloc.ID alloc } := by
  cases hlk : mapLookup s.blocked alloc.ID with
  | none => simp [allocSyncRecv, hlk]
  | some b => simp [allocSyncRecv, hlk, h]

theorem allocSyncRecv_of_release {s : SyncState} {alloc b : Allocation}
    (hb : mapLookup s.blocked alloc.ID = some b)
    (hterm : alloc.Terminated = true) :
    allocSyncRecv s alloc =
      { s with updates := mapInsert s.updates alloc.ID alloc,
               allocs := mapInsert s.allocs b.ID ⟨b⟩,
               launched := s.launched ++ [b.ID],
               blocked := mapErase s.blocked b.PreviousAllocation } := by
  simp [allocSyncRecv, hb, hterm, addAlloc]

theorem allocSync_blocked_release (s : SyncState) (alloc : Allocation)
    (hinv : keyedBy Allocation.PreviousAllocation s.blocked) :
    (∀ b, mapLookup s.blocked alloc.ID = some b → alloc.Terminated = true →
        mapLookup (allocSyncRecv s alloc).allocs b.ID = some ⟨b⟩ ∧
        (allocSyncRecv s alloc).launched = s.launched ++ [b.ID] ∧
        mapLookup (allocSyncRecv s alloc).blocked alloc.ID = none ∧
        (∀ k, k ≠ alloc.ID →
          mapLookup (allocSyncRecv s alloc).blocked k = mapLookup s.blocked k) ∧
        (allocSyncRecv (allocSyncRecv s alloc) alloc).launched =
          s.launched ++ [b.ID]) ∧
    ((mapLookup s.blocked alloc.ID = none ∨ alloc.Terminated = false) →
        (allocSyncRecv s alloc).blocked = s.blocked ∧
        (allocSyncRecv s alloc).allocs = s.allocs ∧
        (allocSyncRecv s alloc).launched = s.launched) := by
  constructor
  · intro b hb hterm
    have hbk : b.PreviousAllocation = alloc.ID :=
      hinv (alloc.ID, b) (mapLookup_mem hb)
    have hs := allocSyncRecv_of_release hb hterm
    have hblocked : mapLookup (allocSyncRecv s alloc).blocked alloc.ID = none := by
      rw [hs]
      simpa [hbk] using mapLookup_erase_self s.blocked alloc.ID
    refine ⟨?_, ?_, hblocked, ?_, ?_⟩
    · rw [hs]; exact mapLookup_insert_self _ _ _
    · rw [hs]
    · intro k hk
      rw [hs]
      simpa [hbk] using mapLookup_erase_ne s.blocked hk
    · rw [allocSyncRecv_of_none hblocked]
      rw [hs]
  · intro h
    rcases h with h | h
    · rw [allocSyncRecv_of_none h]
      exact ⟨rfl, rfl, rfl⟩
    · rw [allocSyncRecv_of_not_term h]
      exact ⟨rfl, rfl, rfl⟩

theorem allocSync_blocked_release_witness :
    mapLookup (allocSyncRecv exSyncState exTermMsg).allocs exAddAlloc.ID =
        some ⟨exAddAlloc⟩ ∧
      mapLookup (allocSyncRecv exSyncState exTermMsg).blocked exTermMsg.ID =
        none := by
  have h := (allocSync_blocked_release exSyncState exTermMsg
      (by unfold keyedBy; decide)).1
    exAddAlloc (by decide) (by decide)
  exact ⟨h.1, h.2.2.1⟩

/-! ### C5: sync-loop coalescing and backoff -/

theorem mapKeys_cons {α : Type} (p : String × α) (rest : List (String × α)) :
    mapKeys (p :: rest) = p.1 :: mapKeys rest := rfl

theorem mapValues_cons {α : Type} (p : String × α) (rest : List (String × α)) :
    mapValues (p :: rest) = p.2 :: mapValues rest := rfl

theorem isEmpty_false_of_ne {α : Type} {l : List α} (h : l ≠ []) :
    l.isEmpty = false := by
  cases l with
  | nil => exact absurd rfl h
  | cons a t => rfl

theorem allocSyncRecv_updates (s : SyncState) (a : Allocation) :
    (allocSyncRecv s a).updates = mapInsert s.updates a.ID a := by
  cases hlk : mapLookup s.blocked a.ID with
  | none => rw [allocSyncRecv_of_none hlk]
  | some b =>
    cases hterm : a.Terminated with
    | false => rw [allocSyncRecv_of_not_term hterm]
    | true => rw [allocSyncRecv_of_release hlk hterm]

theorem foldRecv_updates_inv (msgs : List Allocation) :
    ∀ (s : SyncState), keyedBy Allocation.ID s.updates →
      (mapKeys s.updates).Nodup →
      keyedBy Allocation.ID ((msgs.foldl allocSyncRecv s).updates) ∧
        (mapKeys ((msgs.foldl allocSyncRecv s).updates)).Nodup := by
  induction msgs with
  | nil => intro s h1 h2; exact ⟨h1, h2⟩
  | cons m rest ih =>
    intro s h1 h2
    rw [List.foldl_cons]
    apply ih
    · rw [allocSyncRecv_updates]; exact keyedBy_insert h1 rfl
    · rw [allocSyncRecv_updates]; exact mapKeys_nodup_insert h2 _ _

theorem foldRecv_lookup_last {id : String} (msgs : List Allocation) :
    ∀ (s : SyncState) (lastMsg : Allocation), (∀ m ∈ msgs, m.ID = id) →
      msgs.getLast? = some lastMsg →
      mapLookup ((msgs.foldl allocSyncRecv s).updates) id = some lastMsg := by
  induction msgs with
  | nil => intro s lastMsg _ hlast; simp at hlast
  | cons m rest ih =>
    intro s lastMsg hall hlast
    cases hr : rest with
    | nil =>
      subst hr
      have hm : m.ID = id := hall m (List.mem_cons_self m [])
      have hlm : lastMsg = m := by
        simp [List.getLast?] at hlast
        exact hlast.symm
      rw [List.foldl_cons, List.foldl_nil, allocSyncRecv_updates, hm, hlm]
      exact mapLookup_insert_self _ _ _
    | cons r t =>
      subst hr
      have hlast2 : (r :: t).getLast? = some lastMsg := by
        rw [List.getLast?_cons_cons] at hlast
        exact hlast
      rw [List.foldl_cons]
      exact ih (allocSyncRecv s m) lastMsg
        (fun q hq => hall q (List.mem_cons_of_mem m hq)) hlast2

theorem keyedBy_filter_nil {α : Type} {f : α → String} {m : List (String × α)}
    (h : keyedBy f m) {k : String} (hk : k ∉ mapKeys m) :
    (mapValues m).filter (fun a => f a == k) = [] := by
  induction m with
  | nil => rfl
  | cons p rest ih =>
    rw [mapKeys_cons] at hk
    have hfp : f p.2 = p.1 := h p (List.mem_cons_self _ _)
    have hne : ¬ (f p.2 == k) = true := by
      rw [hfp]
      simp only [beq_iff_eq]
      intro hh
      exact hk (hh ▸ List.mem_cons_self _ _)
    rw [mapValues_cons, List.filter_cons]
    simp only [hne, if_false]
    exact ih (fun q hq => h q (List.mem_cons_of_mem _ hq))
      (fun hh => hk (List.mem_cons_of_mem _ hh))

theorem lookup_filter_values {α : Type} {f : α → String} {m : List (String × α)}
    (hkey : keyedBy f m) (hnd : (mapKeys m).Nodup) {k : String} {v : α}
    (hlk : mapLookup m k = some v) :
    (mapValues m).filter (fun a => f a == k) = [v] := by
  induction m with
  | nil => simp [mapLookup] at hlk
  | cons p rest ih =>
    have hfp : f p.2 = p.1 := hkey p (List.mem_cons_self _ _)
    have hkey2 : keyedBy f rest := fun q hq => hkey q (List.mem_cons_of_mem _ hq)
    rw [mapKeys_cons] at hnd
    have hnd2 := List.Nodup.of_cons hnd
    have hpn : p.1 ∉ mapKeys rest := (List.nodup_cons.mp hnd).1
    by_cases hp : p.1 = k
    · have hv : p.2 = v := by simpa [mapLookup, hp] using hlk
      have hpass : (f p.2 == k) = true := by rw [hfp, hp]; simp
      rw [mapValues_cons, List.filter_cons]
      simp only [hpass, if_true]
      rw [keyedBy_filter_nil hkey2 (hp ▸ hpn), hv]
    · have hfail : ¬ (f p.2 == k) = true := by
        rw [hfp]; simp only [beq_iff_eq]; exact hp
      have hlk2 : mapLookup rest k = some v := by
        simpa [mapLookup, hp] using hlk
      rw [mapValues_cons, List.filter_cons]
      simp only [hfail, if_false]
      exact ih hkey2 hnd2 hlk2

theorem allocSyncTick_batch (d : Bool) (s : SyncState) (ok : Bool) (e : Nat)
    (h : s.updates ≠ []) :
    (allocSyncTick d s ok e).1 = some (mapValues s.updates) := by
  have he := isEmpty_false_of_ne h
  by_cases hst : s.staggered <;> cases ok <;> simp [allocSyncTick, he, hst]

theorem allocSyncTick_success_updates (d : Bool) (s : SyncState) (e : Nat)
    (h : s.updates ≠ []) :
    (allocSyncTick d s true e).2.updates = [] := by
  have he := isEmpty_false_of_ne h
  by_cases hst : s.staggered <;> simp [allocSyncTick, he, hst]

theorem allocSyncTick_failure (d : Bool) (s : SyncState) (e : Nat)
    (h : s.updates ≠ []) :
    (allocSyncTick d s false e).2 =
      { s with tickerIntv := retryIntv d allocSyncRetryIntv e,
               staggered := true } := by
  have he := isEmpty_false_of_ne h
  simp [allocSyncTick, he]

theorem allocSyncTick_success_staggered (d : Bool) (s : SyncState) (e : Nat)
    (h : s.updates ≠ []) (hst : s.staggered = true) :
    (allocSyncTick d s true e).2 =
      { s with updates := [], tickerIntv := allocSyncIntv,
               staggered := false } := by
  have he := isEmpty_false_of_ne h
  simp [allocSyncTick, he, hst]

/-- C5: after any sequence of status-update messages for the same allocation
ID arrives between two ticker fires, the next tick issues one
`Node.UpdateAlloc` RPC whose batch has exactly one entry for that ID, namely
the most recently received message; on RPC success the pending mapping is
cleared, on failure it is retained and the ticker switches to
`allocSyncRetryIntv + rand[0, allocSyncRetryIntv)` — i.e. rand[5s, 10s) in
non-dev mode — until a subsequent successful tick restores the 200 ms
cadence.  The hypotheses are the batch-mapping invariant (entries keyed by
their allocation's ID, unique keys), that all messages carry the given ID,
and that `lastMsg` is the last message. -/
theorem allocSync_coalesces (s : SyncState) (msgs : List Allocation)
    (id : String) (lastMsg : Allocation)
    (hkey : keyedBy Allocation.ID s.updates)
    (hnd : (mapKeys s.updates).Nodup)
    (hall : ∀ m ∈ msgs, m.ID = id)
    (hlast : msgs.getLast? = some lastMsg)
    (entropy entropy2 : Nat) :
    (allocSyncTick false (msgs.foldl allocSyncRecv s) true entropy).1 =
        some (mapValues (msgs.foldl allocSyncRecv s).updates) ∧
      (allocSyncTick false (msgs.foldl allocSyncRecv s) false entropy).1 =
        some (mapValues (msgs.foldl allocSyncRecv s).updates) ∧
      (mapValues (msgs.foldl allocSyncRecv s).updates).filter
        (fun a => a.ID == id) = [lastMsg] ∧
      (allocSyncTick false (msgs.foldl allocSyncRecv s) true entropy).2.updates = [] ∧
      (allocSyncTick false (msgs.foldl allocSyncRecv s) false entropy).2.updates =
        (msgs.foldl allocSyncRecv s).updates ∧
      (allocSyncTick false (msgs.foldl allocSyncRecv s) false entropy).2.staggered = true ∧
      (allocSyncTick false (msgs.foldl allocSyncRecv s) false entropy).2.tickerIntv =
        allocSyncRetryIntv + entropy % allocSyncRetryIntv ∧
      allocSyncRetryIntv ≤
        (allocSyncTick false (msgs.foldl allocSyncRecv s) false entropy).2.tickerIntv ∧
      (allocSyncTick false (msgs.foldl allocSyncRecv s) false entropy).2.tickerIntv <
        2 * allocSyncRetryIntv ∧
      (allocSyncTick false
        (allocSyncTick false (msgs.foldl allocSyncRecv s) false entropy).2
        true entropy2).2.tickerIntv = allocSyncIntv ∧
      (allocSyncTick false
        (allocSyncTick false (msgs.foldl allocSyncRecv s) false entropy).2
        true entropy2).2.staggered = false := by
  have hlk := foldRecv_lookup_last msgs s lastMsg hall hlast
  have hinv := foldRecv_updates_inv msgs s hkey hnd
  have hupne : (msgs.foldl allocSyncRecv s).updates ≠ [] :=
    mapLookup_ne_none_of_some hlk
  have hfail := allocSyncTick_failure false (msgs.foldl allocSyncRecv s) entropy hupne
  have hretry : retryIntv false allocSyncRetryIntv entropy =
      allocSyncRetryIntv + entropy % allocSyncRetryIntv := by
    simp [retryIntv, randomStagger]
  have hpos : 0 < allocSyncRetryIntv := by norm_num [allocSyncRetryIntv, second]
  have hmod := Nat.mod_lt entropy hpos
  have hfail2 : (allocSyncTick false (msgs.foldl allocSyncRecv s) false entropy).2.updates =
      (msgs.foldl allocSyncRecv s).updates := by rw [hfail]
  have hrestore := allocSyncTick_success_staggered false
    (allocSyncTick false (msgs.foldl allocSyncRecv s) false entropy).2 entropy2
    (by rw [hfail2]; exact hupne) (by rw [hfail])
  refine ⟨allocSyncTick_batch _ _ _ _ hupne, allocSyncTick_batch _ _ _ _ hupne,
    lookup_filter_values hinv.1 hinv.2 hlk,
    allocSyncTick_success_updates _ _ _ hupne, hfail2,
    by rw [hfail], by rw [hfail]; exact hretry, ?_, ?_, by rw [hrestore], by rw [hrestore]⟩
  · rw [hfail]
    simp only [hretry]
    omega
  · rw [hfail]
    simp only [hretry]
    omega

theorem allocSync_coalesces_witness :
    (mapValues (([exMsgRunning, exMsgComplete]).foldl allocSyncRecv
        exSyncState0).updates).filter (fun a => a.ID == exSyncID) =
      [exMsgComplete] :=
  (allocSync_coalesces exSyncState0 [exMsgRunning, exMsgComplete] exSyncID
    exMsgComplete (by unfold keyedBy; decide) (by decide) (by decide)
    (by decide) 0 0).2.2.1

/-! ### C8: stale-node recovery in the heartbeat loop -/

/-- C8: an update-status error containing "node not found" triggers exactly
one re-registration (the single `retryRegisterNode` call, which itself
retries until success) and resets the heartbeat timer to the initial stagger
rand[0, 10s); any other error triggers no re-registration and delays the
next attempt by `registerRetryIntv + rand[0, registerRetryIntv)` (base 15 s)
in non-dev mode, and by the flat 1 s dev retry interval in dev mode. -/
theorem heartbeat_stale_node_recovery (devMode : Bool) (e : String)
    (ttl staleEntropy retryEntropy : Nat) :
    (strContains e nodeNotFoundMsg = true →
        heartbeatIter devMode (some e) ttl staleEntropy retryEntropy =
          { reregisterCalls := 1,
            nextDelay := staleEntropy % initialHeartbeatStagger } ∧
        (heartbeatIter devMode (some e) ttl staleEntropy retryEntropy).nextDelay <
          initialHeartbeatStagger) ∧
    (strContains e nodeNotFoundMsg = false →
        (heartbeatIter devMode (some e) ttl staleEntropy retryEntropy).reregisterCalls = 0 ∧
        (devMode = false →
          (heartbeatIter devMode (some e) ttl staleEntropy retryEntropy).nextDelay =
            registerRetryIntv + retryEntropy % registerRetryIntv ∧
          registerRetryIntv ≤
            (heartbeatIter devMode (some e) ttl staleEntropy retryEntropy).nextDelay ∧
          (heartbeatIter devMode (some e) ttl staleEntropy retryEntropy).nextDelay <
            2 * registerRetryIntv) ∧
        (devMode = true →
          (heartbeatIter devMode (some e) ttl staleEntropy retryEntropy).nextDelay =
            devModeRetryIntv)) := by
  have hpos : 0 < initialHeartbeatStagger := by
    norm_num [initialHeartbeatStagger, second]
  have hrpos : 0 < registerRetryIntv := by
    norm_num [registerRetryIntv, second]
  constructor
  · intro h
    constructor
    · simp [heartbeatIter, h, randomStagger]
    · simp only [heartbeatIter, h, if_true, randomStagger]
      exact Nat.mod_lt _ hpos
  · intro h
    refine ⟨by simp [heartbeatIter, h], ?_, ?_⟩
    · intro hdev
      subst hdev
      have hmod := Nat.mod_lt retryEntropy hrpos
      refine ⟨by simp [heartbeatIter, h, retryIntv, randomStagger], ?_, ?_⟩
      · simp only [heartbeatIter, h, if_false, retryIntv, randomStagger,
          Bool.false_eq_true]
        omega
      · simp only [heartbeatIter, h, if_false, retryIntv, randomStagger,
          Bool.false_eq_true]
        omega
    · intro hdev
      subst hdev
      simp [heartbeatIter, h, retryIntv]

theorem heartbeat_stale_node_recovery_witness :
    heartbeatIter false (some exStaleErr) 0 3 7 =
      { reregisterCalls := 1, nextDelay := 3 % initialHeartbeatStagger } :=
  ((heartbeat_stale_node_recovery false exStaleErr 0 3 7).1 (by decide)).1

/-! ### C9: node ID persistence -/

/-- C9: in non-dev mode `nodeID` returns the byte-identical contents of
`<state>/client-id` whenever that file exists and is non-empty, and
otherwise writes a fresh UUID to that path with mode 0700 and returns it, so
a second run over the resulting state (a restart) reads back exactly the
first run's ID; in dev mode a fresh UUID is returned and nothing is
persisted. -/
theorem nodeID_stability (stateDir : String) (fs : FileSys)
    (uuid uuid2 content : String) :
    nodeID true stateDir fs uuid = (uuid, fs) ∧
      (readFile fs (nodeIDPath stateDir) = some content → content.length ≠ 0 →
        nodeID false stateDir fs uuid = (content, fs)) ∧
      (((readFile fs (nodeIDPath stateDir)).getD "").length = 0 →
        nodeID false stateDir fs uuid =
          (uuid, writeFile fs (nodeIDPath stateDir) uuid 0o700) ∧
        mapLookup (writeFile fs (nodeIDPath stateDir) uuid 0o700).files
          (nodeIDPath stateDir) = some (uuid, 0o700)) ∧
      (uuid.length ≠ 0 →
        nodeID false stateDir ((nodeID false stateDir fs uuid).2) uuid2 =
          ((nodeID false stateDir fs uuid).1,
            (nodeID false stateDir fs uuid).2)) := by
  refine ⟨by simp [nodeID], ?_, ?_, ?_⟩
  · intro h hlen
    simp [nodeID, h, hlen]
  · intro h0
    constructor
    · simp [nodeID, h0]
    · exact mapLookup_insert_self _ _ _
  · intro hu
    by_cases h1 : ((readFile fs (nodeIDPath stateDir)).getD "").length ≠ 0
    · have hfirst : nodeID false stateDir fs uuid =
          ((readFile fs (nodeIDPath stateDir)).getD "", fs) := by
        simp [nodeID, h1]
      rw [hfirst]
      simp [nodeID, h1]
    · push_neg at h1
      have hfirst : nodeID false stateDir fs uuid =
          (uuid, writeFile fs (nodeIDPath stateDir) uuid 0o700) := by
        simp [nodeID, h1]
      rw [hfirst]
      have hread : readFile (writeFile fs (nodeIDPath stateDir) uuid 0o700)
          (nodeIDPath stateDir) = some uuid := by
        simp [readFile, writeFile, mapLookup_insert_self]
      simp [nodeID, hread, hu]

theorem nodeID_stability_witness :
    nodeID false exStateDir
        ((nodeID false exStateDir exFS exUUID).2) exStatusRunning =
      ((nodeID false exStateDir exFS exUUID).1,
        (nodeID false exStateDir exFS exUUID).2) :=
  (nodeID_stability exStateDir exFS exUUID exStatusRunning
    exUUID).2.2.2 (by decide)

/-! ### C3: one-shot fingerprint errors abort startup -/

theorem fingerprint_ok_prefix (pre rest : List (String × Except String Bool))
    (hpre : ∀ p ∈ pre, ∃ b, p.2 = Except.ok b) :
    (fingerprint [] (pre ++ rest)).err = (fingerprint [] rest).err ∧
      (fingerprint [] (pre ++ rest)).ran =
        pre.map (fun p => p.1) ++ (fingerprint [] rest).ran := by
  induction pre with
  | nil => simp
  | cons p pr ih =>
    obtain ⟨b, hb⟩ := hpre p (List.mem_cons_self _ _)
    have ih2 := ih (fun q hq => hpre q (List.mem_cons_of_mem _ hq))
    cases p with
    | mk nm res =>
      have hres : res = Except.ok b := hb
      subst hres
      simp [fingerprint, ih2.1, ih2.2]

/-- C3 counterexample: with built-in fingerprinters (arch ok, cpu failing,
memory ok), the boot pass stops at cpu — memory is never invoked — and
NewClient fails, refuting that the remaining fingerprinters still run and
that client startup does not fail. -/
theorem fingerprint_error_counterexample :
    (fingerprint [] exFps).err = some exBoom ∧
      exMemName ∉ (fingerprint [] exFps).ran ∧
      newClientFingerprint [] exFps =
        Except.error (fingerprintingFailedMsg ++ exBoom) := by
  refine ⟨by decide, by decide, ?_⟩
  rfl

/-- C3 (amended): when a built-in fingerprinter's one-shot Fingerprint
invocation returns an error during the boot pass, `fingerprint` returns that
error immediately: exactly the preceding (succeeding) fingerprinters and the
failing one have run, the remaining ones are not invoked, and NewClient
fails with a wrapped fingerprinting error, aborting client startup. -/
theorem fingerprint_error_aborts (pre : List (String × Except String Bool))
    (hpre : ∀ p ∈ pre, ∃ b, p.2 = Except.ok b) (name e : String)
    (post : List (String × Except String Bool)) :
    (fingerprint [] (pre ++ (name, Except.error e) :: post)).err = some e ∧
      (fingerprint [] (pre ++ (name, Except.error e) :: post)).ran =
        pre.map (fun p => p.1) ++ [name] ∧
      newClientFingerprint [] (pre ++ (name, Except.error e) :: post) =
        Except.error (fingerprintingFailedMsg ++ e) := by
  have hfail : (fingerprint [] ((name, Except.error e) :: post)).err = some e ∧
      (fingerprint [] ((name, Except.error e) :: post)).ran = [name] := by
    constructor <;> simp [fingerprint]
  have h := fingerprint_ok_prefix pre ((name, Except.error e) :: post) hpre
  have herr : (fingerprint [] (pre ++ (name, Except.error e) :: post)).err =
      some e := by rw [h.1, hfail.1]
  refine ⟨herr, by rw [h.2, hfail.2], ?_⟩
  simp [newClientFingerprint, herr]

theorem fingerprint_error_aborts_witness :
    (fingerprint [] (exPre ++ (exCPUName, Except.error exBoom) :: exPost)).ran =
      exPre.map (fun p => p.1) ++ [exCPUName] := by
  have h := fingerprint_error_aborts exPre
    (by
      intro p hp
      simp only [exPre, List.mem_singleton] at hp
      rw [hp]
      exact ⟨true, rfl⟩)
    exCPUName exBoom exPost
  exact h.2.1

/-! ### C7: restore errors are collected but abort startup -/

theorem restoreStep_some (o : RestoreOutcome) (id e : String) :
    restoreStep o (id, some e) =
      { o with allocs := mapInsert o.allocs id ⟨{ ID := id }⟩,
               errs := o.errs ++ [e] } := rfl

theorem restoreStep_none (o : RestoreOutcome) (id : String) :
    restoreStep o (id, none) =
      { o with allocs := mapInsert o.allocs id ⟨{ ID := id }⟩,
               launched := o.launched ++ [id] } := rfl

theorem restore_foldl_trace (entries : List (String × Option String)) :
    ∀ (o : RestoreOutcome),
      (entries.foldl restoreStep o).errs =
          o.errs ++ entries.filterMap (fun p => p.2) ∧
        (entries.foldl restoreStep o).launched =
          o.launched ++ (entries.filter (fun p => p.2.isNone)).map (fun p => p.1) := by
  induction entries with
  | nil => intro o; simp
  | cons p rest ih =>
    intro o
    cases p with
    | mk id r =>
      cases r with
      | some e =>
        rw [List.foldl_cons]
        have h := ih (restoreStep o (id, some e))
        refine ⟨?_, ?_⟩
        · rw [h.1, restoreStep_some]
          simp
        · rw [h.2, restoreStep_some]
          simp
      | none =>
        rw [List.foldl_cons]
        have h := ih (restoreStep o (id, none))
        refine ⟨?_, ?_⟩
        · rw [h.1, restoreStep_none]
          simp
        · rw [h.2, restoreStep_none]
          simp

theorem restore_foldl_allocs_stable (entries : List (String × Option String)) :
    ∀ (o : RestoreOutcome) (k : String), k ∉ entries.map (fun p => p.1) →
      mapLookup (entries.foldl restoreStep o).allocs k = mapLookup o.allocs k := by
  induction entries with
  | nil => intro o k _; rfl
  | cons p rest ih =>
    intro o k hk
    simp only [List.map_cons, List.mem_cons] at hk
    push_neg at hk
    rw [List.foldl_cons]
    have hstep : mapLookup (restoreStep o p).allocs k = mapLookup o.allocs k := by
      cases p with
      | mk id r =>
        cases r with
        | some e => rw [restoreStep_some]; exact mapLookup_insert_ne _ _ hk.1
        | none => rw [restoreStep_none]; exact mapLookup_insert_ne _ _ hk.1
    rw [ih (restoreStep o p) k hk.2, hstep]

theorem restore_foldl_allocs (entries : List (String × Option String)) :
    ∀ (o : RestoreOutcome), (entries.map (fun p => p.1)).Nodup →
      ∀ p ∈ entries,
        mapLookup (entries.foldl restoreStep o).allocs p.1 =
          some ⟨{ ID := p.1 }⟩ := by
  induction entries with
  | nil => intro o _ p hp; cases hp
  | cons q rest ih =>
    intro o hnd p hp
    rw [List.map_cons, List.nodup_cons] at hnd
    rcases List.mem_cons.mp hp with hq | hp2
    · subst hq
      rw [List.foldl_cons]
      rw [restore_foldl_allocs_stable rest _ _ hnd.1]
      cases p with
      | mk id r =>
        cases r with
        | some e => rw [restoreStep_some]; exact mapLookup_insert_self _ _ _
        | none => rw [restoreStep_none]; exact mapLookup_insert_self _ _ _
    · rw [List.foldl_cons]
      exact ih (restoreStep o q) hnd.2 p hp2

/-- C7 counterexample: with alloc-1's on-disk state unreadable and alloc-2
fine, the error is collected and alloc-2 still restored, but `restoreState`
returns the multi-error and NewClient fails — refuting that restore errors
do not abort agent startup. -/
theorem restore_abort_counterexample :
    (restoreState exEntries).errs = [exCorrupt] ∧
      (restoreState exEntries).launched = [exAllocDir2] ∧
      newClientRestore exEntries = Except.error [exCorrupt] := by
  refine ⟨by decide, by decide, ?_⟩
  rfl

/-- C7 (amended): when on-disk state is unreadable for some allocations,
each failing allocation's error is collected while restoration continues
with the remaining allocations (every listed allocation gets a runner
installed in the alloc index, every succeeding one has Run launched); but
`restoreState` returns the collected multi-error and NewClient treats any
non-nil restore error as fatal, so restore errors do abort agent startup. -/
theorem restoreState_collects (entries : List (String × Option String))
    (hnd : (entries.map (fun p => p.1)).Nodup) :
    (∀ p ∈ entries, mapLookup (restoreState entries).allocs p.1 =
        some ⟨{ ID := p.1 }⟩) ∧
      (restoreState entries).launched =
        (entries.filter (fun p => p.2.isNone)).map (fun p => p.1) ∧
      (restoreState entries).errs = entries.filterMap (fun p => p.2) ∧
      (newClientRestore entries = Except.ok () ↔
        entries.filterMap (fun p => p.2) = []) := by
  have htrace := restore_foldl_trace entries
    { allocs := [], launched := [], errs := [] }
  have herrs : (restoreState entries).errs = entries.filterMap (fun p => p.2) := by
    simpa [restoreState] using htrace.1
  refine ⟨restore_foldl_allocs entries _ hnd, by simpa [restoreState] using htrace.2,
    herrs, ?_⟩
  by_cases h : entries.filterMap (fun p => p.2) = []
  · simp [newClientRestore, restoreErrorOrNil, herrs, h]
  · simp [newClientRestore, restoreErrorOrNil, herrs, h]

theorem restoreState_collects_witness :
    (restoreState exEntries).launched =
      (exEntries.filter (fun p => p.2.isNone)).map (fun p => p.1) :=
  (restoreState_collects exEntries (by decide)).2.1

/-! ### C4: reserved-port merging -/

theorem values_map_eq_keys {α : Type} (f : α → String) (m : List (String × α))
    (h : keyedBy f m) : (mapValues m).map f = mapKeys m := by
  induction m with
  | nil => rfl
  | cons p rest ih =>
    rw [mapValues_cons, mapKeys_cons, List.map_cons]
    rw [h p (List.mem_cons_self _ _), ih (fun q hq => h q (List.mem_cons_of_mem _ hq))]

theorem foldIns_stable
    (val : List (String × NetworkResource) → NetworkResource → NetworkResource)
    (ns : List NetworkResource) :
    ∀ (idx : List (String × NetworkResource)) (k : String),
      k ∉ ns.map (fun n => n.IP) →
      mapLookup (ns.foldl (fun idx n => mapInsert idx n.IP (val idx n)) idx) k =
        mapLookup idx k := by
  induction ns with
  | nil => intro idx k _; rfl
  | cons n rest ih =>
    intro idx k hk
    simp only [List.map_cons, List.mem_cons] at hk
    push_neg at hk
    rw [List.foldl_cons, ih _ k hk.2]
    exact mapLookup_insert_ne _ _ hk.1

theorem foldIns_lookup
    (val : List (String × NetworkResource) → NetworkResource → NetworkResource)
    (hval : ∀ idx idx2 n, mapLookup idx n.IP = mapLookup idx2 n.IP →
      val idx n = val idx2 n)
    (ns : List NetworkResource) (hnd : (ns.map (fun n => n.IP)).Nodup) :
    ∀ (idx : List (String × NetworkResource)), ∀ net ∈ ns,
      mapLookup (ns.foldl (fun idx n => mapInsert idx n.IP (val idx n)) idx) net.IP =
        some (val idx net) := by
  induction ns with
  | nil => intro idx net hnet; cases hnet
  | cons n rest ih =>
    intro idx net hnet
    rw [List.map_cons, List.nodup_cons] at hnd
    rw [List.foldl_cons]
    rcases List.mem_cons.mp hnet with hn | hnet2
    · subst hn
      rw [foldIns_stable val rest _ net.IP hnd.1]
      exact mapLookup_insert_self _ _ _
    · have hip : net.IP ≠ n.IP := by
        intro hh
        exact hnd.1 (hh ▸ List.mem_map_of_mem (fun n => n.IP) hnet2)
      have heq : val (mapInsert idx n.IP (val idx n)) net = val idx net :=
        hval _ _ _ (mapLookup_insert_ne _ _ hip)
      rw [ih hnd.2 _ net hnet2, heq]

theorem foldIns_keyed
    (val : List (String × NetworkResource) → NetworkResource → NetworkResource)
    (hvalIP : ∀ idx n, keyedBy (fun m => m.IP) idx → (val idx n).IP = n.IP)
    (ns : List NetworkResource) :
    ∀ (idx : List (String × NetworkResource)), keyedBy (fun m => m.IP) idx →
      keyedBy (fun m => m.IP)
        (ns.foldl (fun idx n => mapInsert idx n.IP (val idx n)) idx) := by
  induction ns with
  | nil => intro idx h; exact h
  | cons n rest ih =>
    intro idx h
    rw [List.foldl_cons]
    exact ih _ (keyedBy_insert h (hvalIP idx n h))

theorem foldIns_keysNodup
    (val : List (String × NetworkResource) → NetworkResource → NetworkResource)
    (ns : List NetworkResource) :
    ∀ (idx : List (String × NetworkResource)), (mapKeys idx).Nodup →
      (mapKeys (ns.foldl (fun idx n => mapInsert idx n.IP (val idx n)) idx)).Nodup := by
  induction ns with
  | nil => intro idx h; exact h
  | cons n rest ih =>
    intro idx h
    rw [List.foldl_cons]
    exact ih _ (mapKeys_nodup_insert h _ _)

theorem reserveValue_IP (global : List Int) {idx : List (String × NetworkResource)}
    (net : NetworkResource) (h : keyedBy (fun m => m.IP) idx) :
    (reserveValue global (mapLookup idx net.IP) net).IP = net.IP := by
  cases hlk : mapLookup idx net.IP with
  | none => rfl
  | some r =>
    have := h (net.IP, r) (mapLookup_mem hlk)
    simpa [reserveValue] using this

/-- C4 counterexample: with global port 80, one fingerprinted device at an IP
whose prior reserved entry already lists port 80, the rebuilt entry's
reserved-port list contains port 80 twice — refuting that each entry's
ReservedPorts list is duplicate-free and equals a union. -/
theorem reservePorts_dupfree_counterexample :
    ¬ (∀ n ∈ reservePorts exGlobal [exDevNet] [exPriorNet],
        (n.ReservedPorts.map (fun p => p.Value)).Nodup) := by
  decide

/-- C4 (amended): after reservePorts runs with a non-empty
GloballyReservedPorts configuration (and distinct device/prior-entry IPs),
Reserved.Networks has at most one entry per IP; the entry for an IP with a
fingerprinted device equals its prior entry (or a copy of the device with
MBits zeroed, when no prior entry exists) with the globally-reserved ports
appended — duplicates are not removed, so the list is a concatenation, not a
duplicate-free union; entries for IPs with no fingerprinted device keep
exactly their prior contents, without the global ports. -/
theorem reservePorts_merges (global : List Int)
    (resourceNets reservedNets : List NetworkResource) (hg : global ≠ [])
    (hres : (resourceNets.map (fun n => n.IP)).Nodup)
    (hprev : (reservedNets.map (fun n => n.IP)).Nodup) :
    ((reservePorts global resourceNets reservedNets).map (fun n => n.IP)).Nodup ∧
      (∀ net ∈ resourceNets, ∀ r ∈ reservedNets, r.IP = net.IP →
        { r with ReservedPorts := r.ReservedPorts ++ globalPorts global } ∈
          reservePorts global resourceNets reservedNets) ∧
      (∀ net ∈ resourceNets, net.IP ∉ reservedNets.map (fun n => n.IP) →
        { net with MBits := 0,
                   ReservedPorts := net.ReservedPorts ++ globalPorts global } ∈
          reservePorts global resourceNets reservedNets) ∧
      (∀ r ∈ reservedNets, r.IP ∉ resourceNets.map (fun n => n.IP) →
        r ∈ reservePorts global resourceNets reservedNets) := by
  have hrp : reservePorts global resourceNets reservedNets =
      mapValues (applyGlobal global (buildReservedIndex reservedNets) resourceNets) := by
    simp [reservePorts, isEmpty_false_of_ne hg]
  have hval : ∀ (idx idx2 : List (String × NetworkResource)) (n : NetworkResource),
      mapLookup idx n.IP = mapLookup idx2 n.IP →
      reserveValue global (mapLookup idx n.IP) n =
        reserveValue global (mapLookup idx2 n.IP) n := by
    intro idx idx2 n h
    rw [h]
  have hbuildKeyed : keyedBy (fun m => m.IP) (buildReservedIndex reservedNets) :=
    foldIns_keyed (fun _ n => n) (fun _ _ _ => rfl) reservedNets []
      (fun p hp => absurd hp (List.not_mem_nil p))
  have hbuildNodup : (mapKeys (buildReservedIndex reservedNets)).Nodup :=
    foldIns_keysNodup (fun _ n => n) reservedNets [] List.nodup_nil
  have hfinalKeyed : keyedBy (fun m => m.IP)
      (applyGlobal global (buildReservedIndex reservedNets) resourceNets) :=
    foldIns_keyed (fun idx n => reserveValue global (mapLookup idx n.IP) n)
      (fun idx n h => reserveValue_IP global n h) resourceNets _ hbuildKeyed
  have hfinalNodup : (mapKeys
      (applyGlobal global (buildReservedIndex reservedNets) resourceNets)).Nodup :=
    foldIns_keysNodup (fun idx n => reserveValue global (mapLookup idx n.IP) n)
      resourceNets _ hbuildNodup
  have hmem : ∀ (k : String) (v : NetworkResource),
      mapLookup (applyGlobal global (buildReservedIndex reservedNets) resourceNets) k =
        some v →
      v ∈ reservePorts global resourceNets reservedNets := by
    intro k v hv
    rw [hrp]
    exact List.mem_map_of_mem (fun p => p.2) (mapLookup_mem hv)
  refine ⟨?_, ?_, ?_, ?_⟩
  · rw [hrp]
    have h2 : (mapValues
        (applyGlobal global (buildReservedIndex reservedNets) resourceNets)).map
          (fun n : NetworkResource => n.IP) =
        mapKeys (applyGlobal global (buildReservedIndex reservedNets) resourceNets) :=
      values_map_eq_keys (fun n : NetworkResource => n.IP) _ hfinalKeyed
    rw [h2]
    exact hfinalNodup
  · intro net hnet r hr hip
    have hprior : mapLookup (buildReservedIndex reservedNets) net.IP = some r := by
      rw [← hip]
      exact foldIns_lookup (fun _ n => n) (fun _ _ _ _ => rfl) reservedNets hprev [] r hr
    have hlk : mapLookup
        (applyGlobal global (buildReservedIndex reservedNets) resourceNets) net.IP =
        some (reserveValue global
          (mapLookup (buildReservedIndex reservedNets) net.IP) net) :=
      foldIns_lookup (fun idx n => reserveValue global (mapLookup idx n.IP) n)
        hval resourceNets hres (buildReservedIndex reservedNets) net hnet
    rw [hprior] at hlk
    exact hmem _ _ hlk
  · intro net hnet hnoprior
    have hprior : mapLookup (buildReservedIndex reservedNets) net.IP = none :=
      foldIns_stable (fun _ n => n) reservedNets [] net.IP hnoprior
    have hlk : mapLookup
        (applyGlobal global (buildReservedIndex reservedNets) resourceNets) net.IP =
        some (reserveValue global
          (mapLookup (buildReservedIndex reservedNets) net.IP) net) :=
      foldIns_lookup (fun idx n => reserveValue global (mapLookup idx n.IP) n)
        hval resourceNets hres (buildReservedIndex reservedNets) net hnet
    rw [hprior] at hlk
    exact hmem _ _ hlk
  · intro r hr hnodev
    have hpriorLk : mapLookup (buildReservedIndex reservedNets) r.IP = some r :=
      foldIns_lookup (fun _ n => n) (fun _ _ _ _ => rfl) reservedNets hprev [] r hr
    have hstable : mapLookup
        (applyGlobal global (buildReservedIndex reservedNets) resourceNets) r.IP =
        mapLookup (buildReservedIndex reservedNets) r.IP :=
      foldIns_stable (fun idx n => reserveValue global (mapLookup idx n.IP) n)
        resourceNets (buildReservedIndex reservedNets) r.IP hnodev
    rw [hpriorLk] at hstable
    exact hmem _ _ hstable

theorem reservePorts_merges_witness :
    { exPriorNet with
        ReservedPorts := exPriorNet.ReservedPorts ++ globalPorts exGlobal } ∈
      reservePorts exGlobal [exDevNet] [exPriorNet] := by
  have h := reservePorts_merges exGlobal [exDevNet] [exPriorNet]
    (by decide) (by decide) (by decide)
  exact h.2.1 exDevNet (List.mem_singleton_self _) exPriorNet
    (List.mem_singleton_self _) (by decide)

end Udup
